import Mathlib

/-!
Verification of the SSH shared-key provisioning script (`sshkey.js`).

The script is a single linear procedure `generateSharedSSHKey(alias, provider)`:
it validates its two CLI arguments, resolves the provider to a hostname,
ensures a fixed shared directory exists, generates an ed25519 keypair via an
external `ssh-keygen` call when the private key file is absent, seeds a
`known_hosts` file with two pinned fingerprints when absent, and appends a
base `Host` block and an alias `Host` block to the `config` file, each append
guarded by a raw substring containment check on the pre-existing config text.

The embedding below models the filesystem as a partial map from path strings
to file entries plus a flag for the shared directory, and models the run as a
pure function returning the final filesystem, the ordered list of filesystem
effects performed, the process exit code and the error (if any).  The external
`ssh-keygen` call is modelled by an environment flag saying whether the call
succeeds and by the (opaque) key file contents it would produce.
-/

set_option maxRecDepth 20000

namespace Sshkey

/-- JavaScript `String.prototype.toLowerCase` restricted to ASCII: maps
the characters `A`-`Z` (codepoints 65-90) to their lowercase forms and leaves
every other character unchanged. -/
def jsCharToLower (c : Char) : Char :=
  if 65 ≤ c.toNat ∧ c.toNat ≤ 90 then Char.ofNat (c.toNat + 32) else c

/-- Model of `provider.toLowerCase()` (line 21 of the source).  On all-ASCII
strings this is byte-exact to the JS method; outside ASCII the JS method
also lowercases characters this model leaves unchanged. -/
def jsToLowerCase (s : String) : String := ⟨s.data.map jsCharToLower⟩

/-- Whether every character of `s` is ASCII.  On such strings the modelled
lowercasing agrees exactly with JS `toLowerCase`. -/
def allASCII (s : String) : Bool := s.data.all fun c => c.toNat ≤ 127

/-- JavaScript truthiness of a CLI argument: `undefined` (absent) and the
empty string are falsy, every other string is truthy.  This models the
`!alias || !provider` guard on line 14. -/
def truthy : Option String → Bool
  | none => false
  | some s => decide (s ≠ "")

/-- The provider lookup `hostMap[providerNormalized]` of lines 22-23.  The
object literal has the two own properties `github` and `bitbucket`, but a JS
bracket lookup also reaches the inherited `Object.prototype` properties.
The normalized key is a lowercased string, so the only inherited names it
can ever equal are the two that contain no uppercase letter, `constructor`
and `__proto__`; both yield truthy non-string values (the `Object`
constructor function and `Object.prototype`), which pass the falsiness
check on line 24 and are afterwards used only inside template literals,
where Node (V8) coerces them to the strings recorded here.  Every other
key misses and yields `undefined` (here `none`), triggering the
`Invalid provider` throw. -/
def hostMap (p : String) : Option String :=
  if p = "github" then some "github.com"
  else if p = "bitbucket" then some "bitbucket.org"
  else if p = "constructor" then some "function Object() \x7b [native code] \x7d"
  else if p = "__proto__" then some "[object Object]"
  else none

/-- Provider-to-hostname resolution as the source performs it (lines 21-23):
lowercase the provider, then look it up in the fixed map. -/
def resolveHost (provider : String) : Option String :=
  hostMap (jsToLowerCase provider)

/-- A file on disk: its text content and its creation mode. -/
structure FileEntry where
  content : String
  mode : Nat
deriving DecidableEq

/-- Filesystem state: whether the shared SSH directory exists, and the files
keyed by absolute path. -/
structure FS where
  dirExists : Bool
  files : String → Option FileEntry

/-- Model of `fs.existsSync` / `fs.readFileSync` path lookup. -/
def FS.lookupFile (fs : FS) (p : String) : Option FileEntry := fs.files p

/-- Model of `fs.existsSync` on a file path. -/
def FS.existsFile (fs : FS) (p : String) : Bool := (fs.files p).isSome

/-- Model of `fs.writeFileSync` with an explicit mode. -/
def FS.writeFile (fs : FS) (p c : String) (m : Nat) : FS :=
  { fs with files := fun q => if q = p then some ⟨c, m⟩ else fs.files q }

/-- Model of `fs.appendFileSync`: append to the file if it exists, otherwise
create it with the default mode `0o644`. -/
def FS.appendFile (fs : FS) (p s : String) : FS :=
  match fs.files p with
  | some e => fs.writeFile p (e.content ++ s) e.mode
  | none => fs.writeFile p s 0o644

/-- One observable filesystem effect performed by the run, in order. -/
inductive Effect where
  | mkdir : String → Effect
  | keygen : String → String → Effect
  | writeFile : String → String → Nat → Effect
  | appendFile : String → String → Effect
deriving DecidableEq

/-- The error classes of the script (section 7 of the spec). -/
inductive RunError where
  | missingArguments
  | invalidProvider
  | keyGenerationFailed
deriving DecidableEq

/-- Result of a run: final filesystem, ordered effect trace, process exit
code, and the error that terminated the run (if any). -/
structure Outcome where
  fs : FS
  effects : List Effect
  exitCode : Nat
  error : Option RunError

/-- Environment of a run: the platform (line 27) and the behavior of the
external `ssh-keygen` invocation (line 44): whether it succeeds and the key
file contents it produces. -/
structure Env where
  platformWin : Bool
  keygenOk : Bool
  privContent : String
  pubContent : String

/-- The fixed platform-dependent base directory (line 27). -/
def baseDirOf (win : Bool) : String :=
  if win then "D:\\klarion6.0\\ws" else "/nfs/ws"

/-- The path separator used by `path.join` on each platform. -/
def sepOf (win : Bool) : String := if win then "\\" else "/"

/-- Model of `path.join(baseDir, "shared_ssh")` (line 28). -/
def sharedSSHDirOf (win : Bool) : String :=
  baseDirOf win ++ sepOf win ++ "shared_ssh"

/-- A path inside the shared SSH directory. -/
def inSharedDir (win : Bool) (name : String) : String :=
  sharedSSHDirOf win ++ sepOf win ++ name

/-- The key file name `id_ed25519_<provider>_<alias>` (line 35). -/
def keyNameOf (pn aliasStr : String) : String :=
  "id_ed25519_" ++ pn ++ "_" ++ aliasStr

/-- The private key path (line 36). -/
def privPathOf (win : Bool) (pn aliasStr : String) : String :=
  inSharedDir win (keyNameOf pn aliasStr)

/-- The public key path (line 37). -/
def pubPathOf (win : Bool) (pn aliasStr : String) : String :=
  privPathOf win pn aliasStr ++ ".pub"

/-- The config file path (line 38). -/
def cfgPathOf (win : Bool) : String := inSharedDir win "config"

/-- The known-hosts file path (line 39). -/
def khPathOf (win : Bool) : String := inSharedDir win "known_hosts"

/-- The pinned GitHub fingerprint line (line 49). -/
def ghFingerprint : String :=
  "github.com ssh-ed25519 AAAAC3NzaC1lZDI1NTE5AAAAIOMqqnkVzrm0SdG6UOoqKLsabgH5C9okWi0dh2l9GKJl"

/-- The pinned Bitbucket fingerprint line (line 50). -/
def bbFingerprint : String :=
  "bitbucket.org ssh-rsa AAAAB3NzaC1yc2EAAAADAQABAAABgQDQeJzhupRu0u0cdegZIa8e86EG2qOCsIsD1Xw0xSeiPDlCr7kq97NLmMbpKTX6Esc30NuoqEEHCuc7yWtwp8dI76EEEB1VqY9QJq6vk+aySyboD5QF61I/1WeTwu+deCbgKMGbUijeXhtfbxSxm6JwGrXrhBdofTsbKRUsrN1WoNgUa8uqN1Vx6WAJw1JHPhglEGGHea6QICwJOAr/6mrui/oB7pkaWKHj3z7d1IC4KWLtY47elvjbaTlkN04Kc/5LFEirorGYVbt15kAUlqGM65pk6ZBxtaO3+30LVlORZkxOh+LKL/BvbZ/iRNhItLqNyieoQj/uh/7Iv4uyH/cV/0b4WDSd3DptigWq84lJubb9t/DnZlrJazxyDCulTmKdOR7vs9gMTo+uoIrPSb8ScTtvw65+odKAlBj59dhnVp9zd7QUojOpXlL62Aw56U4oO+FALuevvMjiWeavKhJqlR7i5n9srYcrNV7ttmDw7kf/97P5zauIhxcjX+xHv4M="

/-- The two pinned fingerprint lines (lines 48-51). -/
def trustedHosts : List String := [ghFingerprint, bbFingerprint]

/-- The content written to `known_hosts`: `trustedHosts.join("\n") + "\n"`
(line 55). -/
def knownHostsContent : String :=
  String.intercalate "\n" trustedHosts ++ "\n"

/-- The base host block template (lines 60-68). -/
def baseBlock (hostName priv kh : String) : String :=
  "\nHost " ++ hostName ++ "\n    HostName " ++ hostName ++
  "\n    User git\n    IdentityFile " ++ priv ++
  "\n    IdentitiesOnly yes\n    UserKnownHostsFile " ++ kh ++
  "\n    GlobalKnownHostsFile " ++ kh ++ "\n"

/-- The alias host block template (lines 71-79). -/
def aliasBlock (hostName aliasStr priv kh : String) : String :=
  "\nHost " ++ hostName ++ "-" ++ aliasStr ++ "\n    HostName " ++ hostName ++
  "\n    User git\n    IdentityFile " ++ priv ++
  "\n    IdentitiesOnly yes\n    UserKnownHostsFile " ++ kh ++
  "\n    GlobalKnownHostsFile " ++ kh ++ "\n"

/-- Boolean test that `needle` is a leading segment of `hay` (character
lists). -/
def listPrefixB : List Char → List Char → Bool
  | [], _ => true
  | _ :: _, [] => false
  | a :: as, b :: bs => a == b && listPrefixB as bs

/-- Boolean test that `needle` occurs contiguously somewhere in `hay`. -/
def listInfixB (needle : List Char) : List Char → Bool
  | [] => listPrefixB needle []
  | b :: bs => listPrefixB needle (b :: bs) || listInfixB needle bs

/-- Model of JavaScript `hay.includes(needle)` (lines 85 and 91): raw
substring containment. -/
def strContains (hay needle : String) : Bool := listInfixB needle.data hay.data

/-- The text content of an optional file entry; a missing file reads as the
empty string (line 81-82). -/
def contentOf : Option FileEntry → String
  | some e => e.content
  | none => ""

/-- The creation/effective mode of an optional file entry for an append. -/
def modeOf : Option FileEntry → Nat
  | some e => e.mode
  | none => 0o644

/-- Step 2 of the run: ensure the shared directory exists (lines 30-33). -/
def mkdirStep (win : Bool) (fs : FS) : FS × List Effect :=
  if fs.dirExists then (fs, [])
  else ({ fs with dirExists := true }, [Effect.mkdir (sharedSSHDirOf win)])

/-- Step 5 of the run: create `known_hosts` with the pinned fingerprints and
mode `0o600` when it does not exist (lines 53-57). -/
def khStep (win : Bool) (fs : FS) (eff : List Effect) : FS × List Effect :=
  if fs.existsFile (khPathOf win) then (fs, eff)
  else (fs.writeFile (khPathOf win) knownHostsContent 0o600,
        eff ++ [Effect.writeFile (khPathOf win) knownHostsContent 0o600])

/-- The guarded-append pattern of lines 85-88 and 91-94: append `block` to
the file at `cfg` unless the pre-read config text `c` contains `needle`. -/
def appendIfMissing (cfg c needle block : String) (s : FS × List Effect) :
    FS × List Effect :=
  if strContains c needle then s
  else (s.1.appendFile cfg block, s.2 ++ [Effect.appendFile cfg block])

/-- Steps 6-8 of the run: read the config text (empty when the file is
absent, lines 81-82), then append the base block when the text lacks the
substring `Host <hostName>` (lines 85-88) and the alias block when the text
lacks the substring `Host <hostName>-<alias>` (lines 91-94); both checks are
against the text as read before any append. -/
def configStep (win : Bool) (pn aliasStr hostName : String)
    (fs : FS) (eff : List Effect) : FS × List Effect :=
  appendIfMissing (cfgPathOf win) (contentOf (fs.lookupFile (cfgPathOf win)))
    ("Host " ++ hostName ++ "-" ++ aliasStr)
    (aliasBlock hostName aliasStr (privPathOf win pn aliasStr) (khPathOf win))
    (appendIfMissing (cfgPathOf win) (contentOf (fs.lookupFile (cfgPathOf win)))
      ("Host " ++ hostName)
      (baseBlock hostName (privPathOf win pn aliasStr) (khPathOf win))
      (fs, eff))

/-- Steps 5-8 of the run, after the key is known to exist. -/
def provisionAfterKey (win : Bool) (pn aliasStr hostName : String)
    (fs : FS) (eff : List Effect) : Outcome :=
  ⟨(configStep win pn aliasStr hostName (khStep win fs eff).1 (khStep win fs eff).2).1,
   (configStep win pn aliasStr hostName (khStep win fs eff).1 (khStep win fs eff).2).2,
   0, none⟩

/-- Steps 2-8 for a validated alias/provider pair: ensure the directory,
generate the keypair when the private key is absent (lines 42-45; a failing
`ssh-keygen` terminates the run with exit code 1 via the catch block on
lines 103-106), then continue with `provisionAfterKey`. -/
def provisionValid (aliasStr pn hostName : String) (env : Env) (fs0 : FS) : Outcome :=
  if (mkdirStep env.platformWin fs0).1.existsFile
      (privPathOf env.platformWin pn aliasStr) then
    provisionAfterKey env.platformWin pn aliasStr hostName
      (mkdirStep env.platformWin fs0).1 (mkdirStep env.platformWin fs0).2
  else if env.keygenOk then
    provisionAfterKey env.platformWin pn aliasStr hostName
      (((mkdirStep env.platformWin fs0).1.writeFile
          (privPathOf env.platformWin pn aliasStr) env.privContent 0o600).writeFile
        (pubPathOf env.platformWin pn aliasStr) env.pubContent 0o644)
      ((mkdirStep env.platformWin fs0).2 ++
        [Effect.keygen (privPathOf env.platformWin pn aliasStr) aliasStr])
  else ⟨(mkdirStep env.platformWin fs0).1, (mkdirStep env.platformWin fs0).2, 1,
        some RunError.keyGenerationFailed⟩

/-- The whole run `generateSharedSSHKey(alias, provider)` (lines 12-107):
reject missing/empty arguments (lines 14-19), reject unknown providers
(lines 21-24), then provision. -/
def generateSharedSSHKey (aliasArg providerArg : Option String)
    (env : Env) (fs0 : FS) : Outcome :=
  if truthy aliasArg && truthy providerArg then
    match hostMap (jsToLowerCase (providerArg.getD "")) with
    | some hostName =>
        provisionValid (aliasArg.getD "") (jsToLowerCase (providerArg.getD ""))
          hostName env fs0
    | none => ⟨fs0, [], 1, some RunError.invalidProvider⟩
  else ⟨fs0, [], 1, some RunError.missingArguments⟩

/-- The strings appended to the file at path `cfg` during the run, in
order. -/
def configAppendsL (effs : List Effect) (cfg : String) : List String :=
  effs.filterMap fun e =>
    match e with
    | Effect.appendFile p s => if p = cfg then some s else none
    | _ => none

/-- The strings appended to the file at path `cfg` by an outcome. -/
def configAppends (o : Outcome) (cfg : String) : List String :=
  configAppendsL o.effects cfg

/-- Split a character list on a separator character; mirrors splitting a
file into lines at each newline. -/
def splitOnChar (sep : Char) : List Char → List (List Char)
  | [] => [[]]
  | c :: cs =>
    if c == sep then [] :: splitOnChar sep cs
    else
      match splitOnChar sep cs with
      | [] => [[c]]
      | g :: gs => (c :: g) :: gs

/-- Whether the text `c` contains `l` as a whole line (a maximal
newline-delimited segment). -/
def containsLine (c l : String) : Bool :=
  (splitOnChar '\n' c.data).any fun g => g == l.data

/-- Spec-side notion, for comparison with the code's substring check: a
`Host` stanza for exactly the pattern `pat` is present in config text `c`
when some line of `c` tokenizes (on spaces) to `Host pat`. -/
def hasHostStanza (c pat : String) : Bool :=
  (splitOnChar '\n' c.data).any fun g =>
    ((splitOnChar ' ' g).filter fun t => t ≠ []) == ["Host".data, pat.data]

/-- The ordered list of `Host` stanza header patterns in config text `c`:
for each line beginning with `Host `, the remainder of that line. -/
def hostStanzaPatterns (c : String) : List String :=
  (splitOnChar '\n' c.data).filterMap fun g =>
    if listPrefixB "Host ".data g then some (String.mk (g.drop 5)) else none

/-- A concrete Linux environment where `ssh-keygen` succeeds. -/
def envL : Env :=
  { platformWin := false, keygenOk := true
    privContent := "PRIVATEKEY", pubContent := "PUBLICKEY" }

/-- A concrete Linux environment where `ssh-keygen` fails. -/
def envKgFail : Env := { envL with keygenOk := false }

/-- The empty filesystem: no shared directory, no files. -/
def fsEmpty : FS := { dirExists := false, files := fun _ => none }

/-! ### Lowercasing lemmas -/

theorem jsCharToLower_idem (c : Char) :
    jsCharToLower (jsCharToLower c) = jsCharToLower c := by
  by_cases h : 65 ≤ c.toNat ∧ c.toNat ≤ 90
  · have hnot : ¬(65 ≤ (Char.ofNat (c.toNat + 32)).toNat ∧
        (Char.ofNat (c.toNat + 32)).toNat ≤ 90) := by
      obtain ⟨h1, h2⟩ := h
      set n := c.toNat with hn
      interval_cases n <;> decide
    have hin : jsCharToLower c = Char.ofNat (c.toNat + 32) := by
      rw [jsCharToLower, if_pos h]
    rw [hin, jsCharToLower, if_neg hnot]
  · have hin : jsCharToLower c = c := by rw [jsCharToLower, if_neg h]
    rw [hin]; exact hin

theorem data_jsToLowerCase (s : String) :
    (jsToLowerCase s).data = s.data.map jsCharToLower := rfl

theorem jsToLowerCase_idem (s : String) :
    jsToLowerCase (jsToLowerCase s) = jsToLowerCase s := by
  apply String.ext
  rw [data_jsToLowerCase, data_jsToLowerCase, List.map_map]
  induction s.data with
  | nil => rfl
  | cons c cs ih => simp [Function.comp, jsCharToLower_idem, ih]

theorem jsToLowerCase_empty_iff (s : String) : jsToLowerCase s = "" ↔ s = "" := by
  constructor
  · intro h
    have hd := congrArg String.data h
    rw [data_jsToLowerCase] at hd
    have : s.data = [] := by
      cases hh : s.data with
      | nil => rfl
      | cons c cs => rw [hh] at hd; exact absurd hd (by simp)
    exact String.ext this
  · intro h; subst h; rfl

theorem truthy_jsToLowerCase (s : String) :
    truthy (some (jsToLowerCase s)) = truthy (some s) := by
  by_cases h : s = ""
  · subst h; rfl
  · have h2 : jsToLowerCase s ≠ "" := fun hc => h ((jsToLowerCase_empty_iff s).mp hc)
    simp [truthy, h, h2]

/-! ### Substring containment lemmas -/

theorem listPrefixB_self_append : ∀ (l r : List Char), listPrefixB l (l ++ r) = true
  | [], _ => rfl
  | a :: as, r => by simp [listPrefixB, listPrefixB_self_append as r]

theorem listPrefixB_extend : ∀ (n m r : List Char),
    listPrefixB n m = true → listPrefixB n (m ++ r) = true
  | [], _, _, _ => rfl
  | a :: as, [], r, h => by simp [listPrefixB] at h
  | a :: as, b :: bs, r, h => by
    simp only [listPrefixB, Bool.and_eq_true] at h ⊢
    exact ⟨h.1, listPrefixB_extend as bs r h.2⟩

theorem listInfixB_nil : ∀ (l : List Char), listInfixB [] l = true
  | [] => rfl
  | b :: bs => by simp [listInfixB, listPrefixB]

theorem listInfixB_self_append : ∀ (l r : List Char), listInfixB l (l ++ r) = true
  | [], r => listInfixB_nil r
  | a :: as, r => by
    simp only [List.cons_append, listInfixB, Bool.or_eq_true]
    exact Or.inl (by simpa using listPrefixB_self_append (a :: as) r)

theorem listInfixB_append_left : ∀ (a b n : List Char),
    listInfixB n a = true → listInfixB n (a ++ b) = true
  | [], b, n, h => by
    cases n with
    | nil => exact listInfixB_nil b
    | cons c cs => simp [listInfixB, listPrefixB] at h
  | x :: xs, b, n, h => by
    simp only [listInfixB, Bool.or_eq_true] at h
    simp only [List.cons_append, listInfixB, Bool.or_eq_true]
    cases h with
    | inl h =>
      exact Or.inl (by simpa using listPrefixB_extend n (x :: xs) b h)
    | inr h => exact Or.inr (listInfixB_append_left xs b n h)

theorem listInfixB_append_right : ∀ (a b n : List Char),
    listInfixB n b = true → listInfixB n (a ++ b) = true
  | [], b, n, h => h
  | x :: xs, b, n, h => by
    simp only [List.cons_append, listInfixB, Bool.or_eq_true]
    exact Or.inr (listInfixB_append_right xs b n h)

theorem strContains_append_left (a b n : String) (h : strContains a n = true) :
    strContains (a ++ b) n = true := by
  unfold strContains at h ⊢
  rw [String.data_append]
  exact listInfixB_append_left _ _ _ h

theorem strContains_append_right (a b n : String) (h : strContains b n = true) :
    strContains (a ++ b) n = true := by
  unfold strContains at h ⊢
  rw [String.data_append]
  exact listInfixB_append_right _ _ _ h

theorem strContains_mid (s x t : String) : strContains (s ++ (x ++ t)) x = true := by
  unfold strContains
  rw [String.data_append, String.data_append]
  exact listInfixB_append_right _ _ _ (listInfixB_self_append _ _)

theorem strContains_empty (n : String) (hn : n.data ≠ []) :
    strContains "" n = false := by
  cases h : n.data with
  | nil => exact absurd h hn
  | cons c cs =>
    have : ("" : String).data = [] := rfl
    unfold strContains
    rw [h, this]
    rfl

/-! ### Filesystem lemmas -/

theorem FS.lookupFile_writeFile (fs : FS) (p c : String) (m : Nat) (q : String) :
    (fs.writeFile p c m).lookupFile q =
      if q = p then some ⟨c, m⟩ else fs.lookupFile q := rfl

theorem FS.dirExists_writeFile (fs : FS) (p c : String) (m : Nat) :
    (fs.writeFile p c m).dirExists = fs.dirExists := rfl

theorem FS.existsFile_eq_isSome (fs : FS) (p : String) :
    fs.existsFile p = (fs.lookupFile p).isSome := rfl

theorem FS.lookupFile_appendFile_ne (fs : FS) (p s q : String) (h : q ≠ p) :
    (fs.appendFile p s).lookupFile q = fs.lookupFile q := by
  unfold FS.appendFile
  cases fs.files p <;> rw [FS.lookupFile_writeFile, if_neg h]

theorem str_empty_append (s : String) : "" ++ s = s :=
  String.ext (by rw [String.data_append]; rfl)

theorem FS.lookupFile_appendFile_self (fs : FS) (p s : String) :
    (fs.appendFile p s).lookupFile p =
      some ⟨contentOf (fs.lookupFile p) ++ s, modeOf (fs.lookupFile p)⟩ := by
  unfold FS.appendFile FS.lookupFile contentOf modeOf
  cases h : fs.files p <;>
    simp [FS.writeFile, h, str_empty_append]

theorem FS.dirExists_appendFile (fs : FS) (p s : String) :
    (fs.appendFile p s).dirExists = fs.dirExists := by
  unfold FS.appendFile
  cases fs.files p <;> rfl

/-! ### Path disjointness -/

theorem inSharedDir_inj (win : Bool) {x y : String}
    (h : inSharedDir win x = inSharedDir win y) : x = y := by
  have hd := congrArg String.data h
  simp only [inSharedDir, String.data_append, List.append_assoc] at hd
  exact String.ext (List.append_cancel_left (List.append_cancel_left hd))

theorem pfx_ne (p r s : String)
    (hs : listPrefixB p.data s.data = false) : p ++ r ≠ s := by
  intro heq
  have hp : listPrefixB p.data (p ++ r).data = true := by
    rw [String.data_append]; exact listPrefixB_self_append _ _
  rw [heq, hs] at hp
  exact Bool.noConfusion hp

theorem keyName_decomp (pn a : String) :
    keyNameOf pn a = "id_ed25519_" ++ (pn ++ ("_" ++ a)) := by
  simp [keyNameOf, String.append_assoc]

theorem keyName_pub_decomp (pn a : String) :
    keyNameOf pn a ++ ".pub" = "id_ed25519_" ++ (pn ++ ("_" ++ (a ++ ".pub"))) := by
  simp [keyNameOf, String.append_assoc]

theorem keyName_ne_config (pn a : String) : keyNameOf pn a ≠ "config" := by
  rw [keyName_decomp]; exact pfx_ne _ _ _ (by decide)

theorem keyName_ne_kh (pn a : String) : keyNameOf pn a ≠ "known_hosts" := by
  rw [keyName_decomp]; exact pfx_ne _ _ _ (by decide)

theorem keyNamePub_ne_config (pn a : String) : keyNameOf pn a ++ ".pub" ≠ "config" := by
  rw [keyName_pub_decomp]; exact pfx_ne _ _ _ (by decide)

theorem keyNamePub_ne_kh (pn a : String) : keyNameOf pn a ++ ".pub" ≠ "known_hosts" := by
  rw [keyName_pub_decomp]; exact pfx_ne _ _ _ (by decide)

theorem pubPathOf_eq_inSharedDir (win : Bool) (pn a : String) :
    pubPathOf win pn a = inSharedDir win (keyNameOf pn a ++ ".pub") := by
  simp [pubPathOf, privPathOf, inSharedDir, String.append_assoc]

theorem priv_ne_cfg (win : Bool) (pn a : String) :
    privPathOf win pn a ≠ cfgPathOf win := fun h =>
  keyName_ne_config pn a (inSharedDir_inj win h)

theorem priv_ne_kh (win : Bool) (pn a : String) :
    privPathOf win pn a ≠ khPathOf win := fun h =>
  keyName_ne_kh pn a (inSharedDir_inj win h)

theorem pub_ne_cfg (win : Bool) (pn a : String) :
    pubPathOf win pn a ≠ cfgPathOf win := fun h =>
  keyNamePub_ne_config pn a (inSharedDir_inj win (by rwa [pubPathOf_eq_inSharedDir] at h))

theorem pub_ne_kh (win : Bool) (pn a : String) :
    pubPathOf win pn a ≠ khPathOf win := fun h =>
  keyNamePub_ne_kh pn a (inSharedDir_inj win (by rwa [pubPathOf_eq_inSharedDir] at h))

theorem pub_ne_priv (win : Bool) (pn a : String) :
    pubPathOf win pn a ≠ privPathOf win pn a := by
  intro h
  unfold pubPathOf at h
  have hd := congrArg String.data h
  rw [String.data_append] at hd
  have h2 : (privPathOf win pn a).data ++ (".pub" : String).data =
      (privPathOf win pn a).data ++ [] := by rw [hd, List.append_nil]
  have h3 := List.append_cancel_left h2
  exact absurd h3 (by decide)

theorem cfg_ne_kh (win : Bool) : cfgPathOf win ≠ khPathOf win := fun h =>
  absurd (inSharedDir_inj win h) (by decide)

/-! ### Step characterization lemmas -/

theorem mkdirStep_files (win : Bool) (fs : FS) :
    (mkdirStep win fs).1.files = fs.files := by
  unfold mkdirStep; split <;> rfl

theorem mkdirStep_dir (win : Bool) (fs : FS) :
    (mkdirStep win fs).1.dirExists = true := by
  unfold mkdirStep; split
  · next h => exact h
  · rfl

theorem mkdirStep_eff (win : Bool) (fs : FS) :
    (mkdirStep win fs).2 =
      if fs.dirExists then [] else [Effect.mkdir (sharedSSHDirOf win)] := by
  unfold mkdirStep; split <;> rfl

theorem mkdirStep_lookup (win : Bool) (fs : FS) (q : String) :
    (mkdirStep win fs).1.lookupFile q = fs.lookupFile q := by
  unfold FS.lookupFile; rw [mkdirStep_files]

theorem mkdirStep_exists (win : Bool) (fs : FS) (q : String) :
    (mkdirStep win fs).1.existsFile q = fs.existsFile q := by
  unfold FS.existsFile; rw [mkdirStep_files]

theorem khStep_dir (win : Bool) (fs : FS) (eff : List Effect) :
    (khStep win fs eff).1.dirExists = fs.dirExists := by
  unfold khStep; split <;> rfl

theorem khStep_lookup_ne (win : Bool) (fs : FS) (eff : List Effect) (q : String)
    (h : q ≠ khPathOf win) :
    (khStep win fs eff).1.lookupFile q = fs.lookupFile q := by
  unfold khStep; split
  · rfl
  · show (fs.writeFile (khPathOf win) knownHostsContent 0o600).lookupFile q =
      fs.lookupFile q
    rw [FS.lookupFile_writeFile, if_neg h]

theorem khStep_lookup_kh (win : Bool) (fs : FS) (eff : List Effect) :
    (khStep win fs eff).1.lookupFile (khPathOf win) =
      if fs.existsFile (khPathOf win) then fs.lookupFile (khPathOf win)
      else some ⟨knownHostsContent, 0o600⟩ := by
  unfold khStep; split
  · rfl
  · show (fs.writeFile (khPathOf win) knownHostsContent 0o600).lookupFile (khPathOf win) =
      some ⟨knownHostsContent, 0o600⟩
    rw [FS.lookupFile_writeFile, if_pos rfl]

theorem khStep_eff (win : Bool) (fs : FS) (eff : List Effect) :
    (khStep win fs eff).2 =
      eff ++ (if fs.existsFile (khPathOf win) then []
              else [Effect.writeFile (khPathOf win) knownHostsContent 0o600]) := by
  unfold khStep; split
  · exact (List.append_nil eff).symm
  · rfl

theorem appendIfMissing_dir (cfg c needle block : String) (s : FS × List Effect) :
    (appendIfMissing cfg c needle block s).1.dirExists = s.1.dirExists := by
  unfold appendIfMissing; split
  · rfl
  · exact FS.dirExists_appendFile s.1 cfg block

theorem appendIfMissing_lookup_ne (cfg c needle block : String)
    (s : FS × List Effect) (q : String) (h : q ≠ cfg) :
    (appendIfMissing cfg c needle block s).1.lookupFile q = s.1.lookupFile q := by
  unfold appendIfMissing; split
  · rfl
  · exact FS.lookupFile_appendFile_ne s.1 cfg block q h

theorem appendIfMissing_content (cfg c needle block : String) (s : FS × List Effect) :
    contentOf ((appendIfMissing cfg c needle block s).1.lookupFile cfg) =
      contentOf (s.1.lookupFile cfg)
      ++ (if strContains c needle then "" else block) := by
  unfold appendIfMissing; split
  · rw [String.append_empty]
  · show contentOf ((s.1.appendFile cfg block).lookupFile cfg) = _
    rw [FS.lookupFile_appendFile_self]
    rfl

theorem appendIfMissing_eff (cfg c needle block : String) (s : FS × List Effect) :
    (appendIfMissing cfg c needle block s).2 =
      s.2 ++ (if strContains c needle then []
              else [Effect.appendFile cfg block]) := by
  unfold appendIfMissing; split
  · exact (List.append_nil s.2).symm
  · rfl

theorem configStep_dir (win : Bool) (pn a H : String) (fs : FS) (eff : List Effect) :
    (configStep win pn a H fs eff).1.dirExists = fs.dirExists := by
  unfold configStep
  rw [appendIfMissing_dir, appendIfMissing_dir]

theorem configStep_lookup_ne (win : Bool) (pn a H : String) (fs : FS)
    (eff : List Effect) (q : String) (h : q ≠ cfgPathOf win) :
    (configStep win pn a H fs eff).1.lookupFile q = fs.lookupFile q := by
  unfold configStep
  rw [appendIfMissing_lookup_ne _ _ _ _ _ _ h, appendIfMissing_lookup_ne _ _ _ _ _ _ h]

theorem configStep_content (win : Bool) (pn a H : String) (fs : FS) (eff : List Effect) :
    contentOf ((configStep win pn a H fs eff).1.lookupFile (cfgPathOf win)) =
      contentOf (fs.lookupFile (cfgPathOf win))
      ++ (if strContains (contentOf (fs.lookupFile (cfgPathOf win))) ("Host " ++ H) then ""
          else baseBlock H (privPathOf win pn a) (khPathOf win))
      ++ (if strContains (contentOf (fs.lookupFile (cfgPathOf win)))
            ("Host " ++ H ++ "-" ++ a) then ""
          else aliasBlock H a (privPathOf win pn a) (khPathOf win)) := by
  unfold configStep
  rw [appendIfMissing_content, appendIfMissing_content]

theorem configStep_eff (win : Bool) (pn a H : String) (fs : FS) (eff : List Effect) :
    (configStep win pn a H fs eff).2 =
      eff
      ++ (if strContains (contentOf (fs.lookupFile (cfgPathOf win))) ("Host " ++ H) then []
          else [Effect.appendFile (cfgPathOf win)
                  (baseBlock H (privPathOf win pn a) (khPathOf win))])
      ++ (if strContains (contentOf (fs.lookupFile (cfgPathOf win)))
            ("Host " ++ H ++ "-" ++ a) then []
          else [Effect.appendFile (cfgPathOf win)
                  (aliasBlock H a (privPathOf win pn a) (khPathOf win))]) := by
  unfold configStep
  rw [appendIfMissing_eff, appendIfMissing_eff]

theorem provisionAfterKey_exit (win : Bool) (pn a H : String) (fs : FS)
    (eff : List Effect) :
    (provisionAfterKey win pn a H fs eff).exitCode = 0 := rfl

theorem provisionAfterKey_error (win : Bool) (pn a H : String) (fs : FS)
    (eff : List Effect) :
    (provisionAfterKey win pn a H fs eff).error = none := rfl

theorem provisionAfterKey_fs (win : Bool) (pn a H : String) (fs : FS)
    (eff : List Effect) :
    (provisionAfterKey win pn a H fs eff).fs =
      (configStep win pn a H (khStep win fs eff).1 (khStep win fs eff).2).1 := rfl

theorem provisionAfterKey_effects (win : Bool) (pn a H : String) (fs : FS)
    (eff : List Effect) :
    (provisionAfterKey win pn a H fs eff).effects =
      (configStep win pn a H (khStep win fs eff).1 (khStep win fs eff).2).2 := rfl

theorem provisionAfterKey_dir (win : Bool) (pn a H : String) (fs : FS)
    (eff : List Effect) :
    (provisionAfterKey win pn a H fs eff).fs.dirExists = fs.dirExists := by
  rw [provisionAfterKey_fs, configStep_dir, khStep_dir]

theorem provisionAfterKey_lookup_other (win : Bool) (pn a H : String) (fs : FS)
    (eff : List Effect) (q : String) (hq1 : q ≠ khPathOf win) (hq2 : q ≠ cfgPathOf win) :
    (provisionAfterKey win pn a H fs eff).fs.lookupFile q = fs.lookupFile q := by
  rw [provisionAfterKey_fs, configStep_lookup_ne _ _ _ _ _ _ _ hq2,
    khStep_lookup_ne _ _ _ _ hq1]

theorem provisionAfterKey_kh (win : Bool) (pn a H : String) (fs : FS)
    (eff : List Effect) :
    (provisionAfterKey win pn a H fs eff).fs.lookupFile (khPathOf win) =
      if fs.existsFile (khPathOf win) then fs.lookupFile (khPathOf win)
      else some ⟨knownHostsContent, 0o600⟩ := by
  rw [provisionAfterKey_fs,
    configStep_lookup_ne _ _ _ _ _ _ _ (Ne.symm (cfg_ne_kh win)),
    khStep_lookup_kh]

theorem provisionAfterKey_content (win : Bool) (pn a H : String) (fs : FS)
    (eff : List Effect) :
    contentOf ((provisionAfterKey win pn a H fs eff).fs.lookupFile (cfgPathOf win)) =
      contentOf (fs.lookupFile (cfgPathOf win))
      ++ (if strContains (contentOf (fs.lookupFile (cfgPathOf win))) ("Host " ++ H) then ""
          else baseBlock H (privPathOf win pn a) (khPathOf win))
      ++ (if strContains (contentOf (fs.lookupFile (cfgPathOf win)))
            ("Host " ++ H ++ "-" ++ a) then ""
          else aliasBlock H a (privPathOf win pn a) (khPathOf win)) := by
  rw [provisionAfterKey_fs, configStep_content,
    khStep_lookup_ne _ _ _ _ (cfg_ne_kh win)]

theorem provisionAfterKey_effects_eq (win : Bool) (pn a H : String) (fs : FS)
    (eff : List Effect) :
    (provisionAfterKey win pn a H fs eff).effects =
      (eff
       ++ (if fs.existsFile (khPathOf win) then []
           else [Effect.writeFile (khPathOf win) knownHostsContent 0o600]))
      ++ (if strContains (contentOf (fs.lookupFile (cfgPathOf win))) ("Host " ++ H) then []
          else [Effect.appendFile (cfgPathOf win)
                  (baseBlock H (privPathOf win pn a) (khPathOf win))])
      ++ (if strContains (contentOf (fs.lookupFile (cfgPathOf win)))
            ("Host " ++ H ++ "-" ++ a) then []
          else [Effect.appendFile (cfgPathOf win)
                  (aliasBlock H a (privPathOf win pn a) (khPathOf win))]) := by
  rw [provisionAfterKey_effects, configStep_eff,
    khStep_lookup_ne _ _ _ _ (cfg_ne_kh win), khStep_eff]

/-! ### Host-block containment lemmas -/

theorem baseBlock_shape (H P K : String) : baseBlock H P K =
    "\n" ++ (("Host " ++ H) ++ ("\n    HostName " ++ (H ++
      ("\n    User git\n    IdentityFile " ++
      (P ++ ("\n    IdentitiesOnly yes\n    UserKnownHostsFile " ++
        (K ++ ("\n    GlobalKnownHostsFile " ++ (K ++ "\n"))))))))) := by
  apply String.ext
  rw [baseBlock, show ("\nHost " : String) = "\n" ++ "Host " from rfl]
  simp [String.data_append, List.append_assoc]

theorem baseBlock_contains (H P K : String) :
    strContains (baseBlock H P K) ("Host " ++ H) = true := by
  rw [baseBlock_shape]
  exact strContains_mid _ _ _

theorem aliasBlock_shape (H A P K : String) : aliasBlock H A P K =
    "\n" ++ ((("Host " ++ H) ++ ("-" ++ A)) ++ ("\n    HostName " ++ (H ++
      ("\n    User git\n    IdentityFile " ++
      (P ++ ("\n    IdentitiesOnly yes\n    UserKnownHostsFile " ++
        (K ++ ("\n    GlobalKnownHostsFile " ++ (K ++ "\n"))))))))) := by
  apply String.ext
  rw [aliasBlock, show ("\nHost " : String) = "\n" ++ "Host " from rfl]
  simp [String.data_append, List.append_assoc]

theorem aliasBlock_contains (H A P K : String) :
    strContains (aliasBlock H A P K) ("Host " ++ H ++ "-" ++ A) = true := by
  rw [aliasBlock_shape]
  have h2 : ("Host " ++ H ++ "-" ++ A : String) = ("Host " ++ H) ++ ("-" ++ A) := by
    simp [String.append_assoc]
  rw [h2]
  exact strContains_mid _ _ _

/-! ### Run-level branch lemmas -/

theorem run_missing (a p : Option String) (env : Env) (fs : FS)
    (h : truthy a = false ∨ truthy p = false) :
    generateSharedSSHKey a p env fs = ⟨fs, [], 1, some RunError.missingArguments⟩ := by
  cases h with
  | inl h => simp [generateSharedSSHKey, h]
  | inr h => simp [generateSharedSSHKey, h]

theorem run_invalid (a p : Option String) (env : Env) (fs : FS)
    (ha : truthy a = true) (hp : truthy p = true)
    (hm : hostMap (jsToLowerCase (p.getD "")) = none) :
    generateSharedSSHKey a p env fs = ⟨fs, [], 1, some RunError.invalidProvider⟩ := by
  simp [generateSharedSSHKey, ha, hp, hm]

theorem run_valid (a p : Option String) (env : Env) (fs : FS) (H : String)
    (ha : truthy a = true) (hp : truthy p = true)
    (hm : hostMap (jsToLowerCase (p.getD "")) = some H) :
    generateSharedSSHKey a p env fs =
      provisionValid (a.getD "") (jsToLowerCase (p.getD "")) H env fs := by
  simp [generateSharedSSHKey, ha, hp, hm]

theorem provisionValid_kgfail (aliasStr pn H : String) (env : Env) (fs : FS)
    (hk : fs.existsFile (privPathOf env.platformWin pn aliasStr) = false)
    (hg : env.keygenOk = false) :
    provisionValid aliasStr pn H env fs =
      ⟨(mkdirStep env.platformWin fs).1, (mkdirStep env.platformWin fs).2, 1,
        some RunError.keyGenerationFailed⟩ := by
  have hk2 : (mkdirStep env.platformWin fs).1.existsFile
      (privPathOf env.platformWin pn aliasStr) = false := by
    rw [mkdirStep_exists]; exact hk
  simp [provisionValid, hk2, hg]

theorem configAppendsL_append (e1 e2 : List Effect) (q : String) :
    configAppendsL (e1 ++ e2) q = configAppendsL e1 q ++ configAppendsL e2 q := by
  unfold configAppendsL
  exact List.filterMap_append e1 e2 _

theorem configAppendsL_mkdirStep (win : Bool) (fs : FS) (q : String) :
    configAppendsL (mkdirStep win fs).2 q = [] := by
  rw [mkdirStep_eff]
  cases h : fs.dirExists <;> simp [configAppendsL]

theorem provisionValid_reach (aliasStr pn H : String) (env : Env) (fs : FS)
    (hk : fs.existsFile (privPathOf env.platformWin pn aliasStr) = true ∨
      env.keygenOk = true) :
    ∃ fsK effK,
      provisionValid aliasStr pn H env fs =
        provisionAfterKey env.platformWin pn aliasStr H fsK effK ∧
      fsK.dirExists = true ∧
      fsK.existsFile (privPathOf env.platformWin pn aliasStr) = true ∧
      fsK.lookupFile (khPathOf env.platformWin) =
        fs.lookupFile (khPathOf env.platformWin) ∧
      fsK.lookupFile (cfgPathOf env.platformWin) =
        fs.lookupFile (cfgPathOf env.platformWin) ∧
      configAppendsL effK (cfgPathOf env.platformWin) = [] := by
  by_cases hk1 : (mkdirStep env.platformWin fs).1.existsFile
      (privPathOf env.platformWin pn aliasStr) = true
  · refine ⟨(mkdirStep env.platformWin fs).1, (mkdirStep env.platformWin fs).2,
      ?_, mkdirStep_dir env.platformWin fs, hk1,
      mkdirStep_lookup env.platformWin fs _, mkdirStep_lookup env.platformWin fs _,
      configAppendsL_mkdirStep env.platformWin fs _⟩
    simp [provisionValid, hk1]
  · have hkg : env.keygenOk = true := by
      cases hk with
      | inl h => rw [mkdirStep_exists] at hk1; exact absurd h hk1
      | inr h => exact h
    have hk2 : (mkdirStep env.platformWin fs).1.existsFile
        (privPathOf env.platformWin pn aliasStr) = false := by
      revert hk1; cases (mkdirStep env.platformWin fs).1.existsFile
        (privPathOf env.platformWin pn aliasStr) <;> simp
    refine ⟨((mkdirStep env.platformWin fs).1.writeFile
        (privPathOf env.platformWin pn aliasStr) env.privContent 0o600).writeFile
        (pubPathOf env.platformWin pn aliasStr) env.pubContent 0o644,
      (mkdirStep env.platformWin fs).2 ++
        [Effect.keygen (privPathOf env.platformWin pn aliasStr) aliasStr],
      ?_, ?_, ?_, ?_, ?_, ?_⟩
    · simp [provisionValid, hk2, hkg]
    · rw [FS.dirExists_writeFile, FS.dirExists_writeFile, mkdirStep_dir]
    · rw [FS.existsFile_eq_isSome, FS.lookupFile_writeFile,
        if_neg (Ne.symm (pub_ne_priv env.platformWin pn aliasStr)),
        FS.lookupFile_writeFile, if_pos rfl]
      rfl
    · rw [FS.lookupFile_writeFile,
        if_neg (Ne.symm (pub_ne_kh env.platformWin pn aliasStr)),
        FS.lookupFile_writeFile,
        if_neg (Ne.symm (priv_ne_kh env.platformWin pn aliasStr)),
        mkdirStep_lookup]
    · rw [FS.lookupFile_writeFile,
        if_neg (Ne.symm (pub_ne_cfg env.platformWin pn aliasStr)),
        FS.lookupFile_writeFile,
        if_neg (Ne.symm (priv_ne_cfg env.platformWin pn aliasStr)),
        mkdirStep_lookup]
    · rw [configAppendsL_append, configAppendsL_mkdirStep]
      simp [configAppendsL]

theorem run_exit_zero (a p : Option String) (env : Env) (fs : FS)
    (h : (generateSharedSSHKey a p env fs).exitCode = 0) :
    truthy a = true ∧ truthy p = true ∧
    ∃ H, hostMap (jsToLowerCase (p.getD "")) = some H ∧
      (fs.existsFile (privPathOf env.platformWin (jsToLowerCase (p.getD ""))
          (a.getD "")) = true ∨ env.keygenOk = true) := by
  by_cases ha : truthy a = true
  · by_cases hp : truthy p = true
    · cases hm : hostMap (jsToLowerCase (p.getD "")) with
      | none =>
        rw [run_invalid a p env fs ha hp hm] at h
        exact absurd h Nat.one_ne_zero
      | some H =>
        refine ⟨ha, hp, H, rfl, ?_⟩
        by_cases hk : fs.existsFile (privPathOf env.platformWin
            (jsToLowerCase (p.getD "")) (a.getD "")) = true
        · exact Or.inl hk
        · by_cases hkg : env.keygenOk = true
          · exact Or.inr hkg
          · exfalso
            have hk2 : fs.existsFile (privPathOf env.platformWin
                (jsToLowerCase (p.getD "")) (a.getD "")) = false := by
              revert hk; cases fs.existsFile (privPathOf env.platformWin
                (jsToLowerCase (p.getD "")) (a.getD "")) <;> simp
            have hkg2 : env.keygenOk = false := by
              revert hkg; cases env.keygenOk <;> simp
            rw [run_valid a p env fs H ha hp hm,
              provisionValid_kgfail _ _ _ _ _ hk2 hkg2] at h
            exact absurd h Nat.one_ne_zero
    · have hp2 : truthy p = false := by
        revert hp; cases truthy p <;> simp
      rw [run_missing a p env fs (Or.inr hp2)] at h
      exact absurd h Nat.one_ne_zero
  · have ha2 : truthy a = false := by
      revert ha; cases truthy a <;> simp
    rw [run_missing a p env fs (Or.inl ha2)] at h
    exact absurd h Nat.one_ne_zero

/-- A filesystem state is good for `(pn, aliasStr, hostName)` when every
artifact the run would create is already present: the shared directory, the
private key, the known-hosts file, and a config whose text contains both
`Host` substrings. -/
def goodFS (win : Bool) (pn aliasStr hostName : String) (fs : FS) : Prop :=
  fs.dirExists = true ∧
  fs.existsFile (privPathOf win pn aliasStr) = true ∧
  fs.existsFile (khPathOf win) = true ∧
  strContains (contentOf (fs.lookupFile (cfgPathOf win))) ("Host " ++ hostName) = true ∧
  strContains (contentOf (fs.lookupFile (cfgPathOf win)))
    ("Host " ++ hostName ++ "-" ++ aliasStr) = true

theorem mkdirStep_of_dir (win : Bool) (fs : FS) (h : fs.dirExists = true) :
    mkdirStep win fs = (fs, []) := by
  unfold mkdirStep; rw [if_pos h]

theorem khStep_of_exists (win : Bool) (fs : FS) (eff : List Effect)
    (h : fs.existsFile (khPathOf win) = true) :
    khStep win fs eff = (fs, eff) := by
  unfold khStep; rw [if_pos h]

theorem configStep_of_contains (win : Bool) (pn a H : String) (fs : FS)
    (eff : List Effect)
    (hb : strContains (contentOf (fs.lookupFile (cfgPathOf win))) ("Host " ++ H) = true)
    (hal : strContains (contentOf (fs.lookupFile (cfgPathOf win)))
      ("Host " ++ H ++ "-" ++ a) = true) :
    configStep win pn a H fs eff = (fs, eff) := by
  unfold configStep appendIfMissing
  rw [if_pos hb, if_pos hal]

theorem run_noop (a p : Option String) (env : Env) (fs : FS) (H : String)
    (ha : truthy a = true) (hp : truthy p = true)
    (hm : hostMap (jsToLowerCase (p.getD "")) = some H)
    (hg : goodFS env.platformWin (jsToLowerCase (p.getD "")) (a.getD "") H fs) :
    generateSharedSSHKey a p env fs = ⟨fs, [], 0, none⟩ := by
  obtain ⟨h1, h2, h3, h4, h5⟩ := hg
  rw [run_valid a p env fs H ha hp hm]
  have hmk := mkdirStep_of_dir env.platformWin fs h1
  have hk1 : (mkdirStep env.platformWin fs).1.existsFile
      (privPathOf env.platformWin (jsToLowerCase (p.getD "")) (a.getD "")) = true := by
    rw [hmk]; exact h2
  rw [provisionValid, if_pos hk1, hmk]
  rw [provisionAfterKey, khStep_of_exists _ _ _ h3]
  rw [configStep_of_contains _ _ _ _ _ _ h4 h5]

theorem run_success_good (a p : Option String) (env : Env) (fs : FS) (H : String)
    (hm : hostMap (jsToLowerCase (p.getD "")) = some H)
    (h : (generateSharedSSHKey a p env fs).exitCode = 0) :
    goodFS env.platformWin (jsToLowerCase (p.getD "")) (a.getD "") H
      ((generateSharedSSHKey a p env fs).fs) := by
  obtain ⟨ha, hp, H2, hm2, hk⟩ := run_exit_zero a p env fs h
  rw [hm] at hm2
  injection hm2 with hH2
  subst hH2
  obtain ⟨fsK, effK, heq, hdir, hpriv, hkh, hcfg, -⟩ :=
    provisionValid_reach (a.getD "") (jsToLowerCase (p.getD "")) H env fs hk
  have hrun : generateSharedSSHKey a p env fs =
      provisionAfterKey env.platformWin (jsToLowerCase (p.getD "")) (a.getD "") H
        fsK effK := by
    rw [run_valid a p env fs H ha hp hm, heq]
  rw [hrun]
  refine ⟨?_, ?_, ?_, ?_, ?_⟩
  · rw [provisionAfterKey_dir]; exact hdir
  · rw [FS.existsFile_eq_isSome, provisionAfterKey_lookup_other _ _ _ _ _ _ _
      (priv_ne_kh env.platformWin _ _) (priv_ne_cfg env.platformWin _ _)]
    exact hpriv
  · rw [FS.existsFile_eq_isSome, provisionAfterKey_kh]
    by_cases hkhE : fsK.existsFile (khPathOf env.platformWin) = true
    · rw [if_pos hkhE]
      rw [FS.existsFile_eq_isSome] at hkhE
      exact hkhE
    · rw [if_neg hkhE]; rfl
  · rw [provisionAfterKey_content]
    by_cases hb : strContains (contentOf (fsK.lookupFile (cfgPathOf env.platformWin)))
        ("Host " ++ H) = true
    · rw [if_pos hb, String.append_empty]
      by_cases hal : strContains (contentOf (fsK.lookupFile (cfgPathOf env.platformWin)))
          ("Host " ++ H ++ "-" ++ (a.getD ""))
      · rw [if_pos hal, String.append_empty]; exact hb
      · rw [if_neg hal]
        exact strContains_append_left _ _ _ hb
    · rw [if_neg hb]
      have hbb := baseBlock_contains H (privPathOf env.platformWin
        (jsToLowerCase (p.getD "")) (a.getD "")) (khPathOf env.platformWin)
      have hleft : strContains (contentOf (fsK.lookupFile (cfgPathOf env.platformWin))
          ++ baseBlock H (privPathOf env.platformWin (jsToLowerCase (p.getD ""))
            (a.getD "")) (khPathOf env.platformWin)) ("Host " ++ H) = true :=
        strContains_append_right _ _ _ hbb
      by_cases hal : strContains (contentOf (fsK.lookupFile (cfgPathOf env.platformWin)))
          ("Host " ++ H ++ "-" ++ (a.getD ""))
      · rw [if_pos hal, String.append_empty]; exact hleft
      · rw [if_neg hal]
        exact strContains_append_left _ _ _ hleft
  · rw [provisionAfterKey_content]
    by_cases hal : strContains (contentOf (fsK.lookupFile (cfgPathOf env.platformWin)))
        ("Host " ++ H ++ "-" ++ (a.getD "")) = true
    · rw [if_pos hal, String.append_empty]
      by_cases hb : strContains (contentOf (fsK.lookupFile (cfgPathOf env.platformWin)))
          ("Host " ++ H)
      · rw [if_pos hb, String.append_empty]; exact hal
      · rw [if_neg hb]
        exact strContains_append_left _ _ _ hal
    · rw [if_neg hal]
      exact strContains_append_right _ _ _ (aliasBlock_contains H (a.getD "") _ _)

theorem mkdirStep_fst (win : Bool) (fs : FS) :
    (mkdirStep win fs).1 = { fs with dirExists := true } := by
  cases fs with
  | mk d f =>
    unfold mkdirStep
    cases d
    · rw [if_neg (by simp)]
    · rw [if_pos rfl]

theorem intercalate_pair (s x y : String) :
    String.intercalate s [x, y] = x ++ s ++ y := rfl

theorem bool_false_of_not_true {b : Bool} (h : ¬b = true) : b = false := by
  cases b
  · rfl
  · exact absurd rfl h

/-! ### Lines of a text are substrings of it -/

theorem splitOnChar_cons_sep (sep c : Char) (cs : List Char) (hc : (c == sep) = true) :
    splitOnChar sep (c :: cs) = [] :: splitOnChar sep cs := by
  rw [splitOnChar, if_pos hc]

theorem splitOnChar_cons_ne (sep c : Char) (cs : List Char) (hc : ¬(c == sep) = true)
    (g : List Char) (gs : List (List Char)) (hs : splitOnChar sep cs = g :: gs) :
    splitOnChar sep (c :: cs) = (c :: g) :: gs := by
  rw [splitOnChar, if_neg hc, hs]

theorem splitOnChar_head_pfx (sep : Char) : ∀ xs : List Char,
    ∃ g gs, splitOnChar sep xs = g :: gs ∧ listPrefixB g xs = true
  | [] => ⟨[], [], rfl, rfl⟩
  | c :: cs => by
    by_cases hc : (c == sep) = true
    · exact ⟨[], _, splitOnChar_cons_sep sep c cs hc, rfl⟩
    · obtain ⟨g0, gs0, hsplit, hpfx⟩ := splitOnChar_head_pfx sep cs
      refine ⟨c :: g0, gs0, splitOnChar_cons_ne sep c cs hc g0 gs0 hsplit, ?_⟩
      simp [listPrefixB, hpfx]

theorem listInfixB_cons (b : Char) (bs n : List Char) (h : listInfixB n bs = true) :
    listInfixB n (b :: bs) = true := by
  simp only [listInfixB, Bool.or_eq_true]
  exact Or.inr h

theorem splitOnChar_mem_sub (sep : Char) : ∀ (xs g : List Char),
    g ∈ splitOnChar sep xs → listInfixB g xs = true
  | [], g, hg => by
    simp [splitOnChar] at hg
    subst hg
    rfl
  | c :: cs, g, hg => by
    by_cases hc : (c == sep) = true
    · rw [splitOnChar_cons_sep sep c cs hc] at hg
      rcases List.mem_cons.mp hg with hg | hg
      · subst hg; exact listInfixB_nil _
      · exact listInfixB_cons c cs g (splitOnChar_mem_sub sep cs g hg)
    · obtain ⟨g0, gs0, hsplit, hpfx⟩ := splitOnChar_head_pfx sep cs
      rw [splitOnChar_cons_ne sep c cs hc g0 gs0 hsplit] at hg
      rcases List.mem_cons.mp hg with hg | hg
      · subst hg
        simp only [listInfixB, Bool.or_eq_true]
        exact Or.inl (by simp [listPrefixB, hpfx])
      · have hmm2 : g ∈ splitOnChar sep cs := by
          rw [hsplit]; exact List.mem_cons_of_mem _ hg
        exact listInfixB_cons c cs g (splitOnChar_mem_sub sep cs g hmm2)

theorem strContains_of_containsLine (c l : String) (h : containsLine c l = true) :
    strContains c l = true := by
  unfold containsLine at h
  rw [List.any_eq_true] at h
  obtain ⟨g, hgmem, hgeq⟩ := h
  have hgl : g = l.data := eq_of_beq hgeq
  subst hgl
  exact splitOnChar_mem_sub _ _ _ hgmem

theorem configAppendsL_ite_writeFile (c : Prop) [Decidable c] (x y : String)
    (z : Nat) (q : String) :
    configAppendsL (if c then [] else [Effect.writeFile x y z]) q = [] := by
  split <;> simp [configAppendsL]

/-! ### Splitting the two appended blocks into lines -/

theorem splitOnChar_seg (sep : Char) : ∀ (xs ys : List Char), sep ∉ xs →
    splitOnChar sep (xs ++ sep :: ys) = xs :: splitOnChar sep ys
  | [], ys, _ => by
    rw [List.nil_append]
    exact splitOnChar_cons_sep sep sep ys (by simp)
  | c :: cs, ys, h => by
    have hc : ¬(c == sep) = true := by
      simp only [beq_iff_eq]
      intro hh
      exact h (by rw [← hh]; exact List.mem_cons_self c cs)
    have hrec := splitOnChar_seg sep cs ys fun hm => h (List.mem_cons_of_mem c hm)
    rw [List.cons_append]
    exact splitOnChar_cons_ne sep c (cs ++ sep :: ys) hc cs (splitOnChar sep ys) hrec

theorem noNL_app {x y : List Char} (hx : ('\n' : Char) ∉ x) (hy : ('\n' : Char) ∉ y) :
    ('\n' : Char) ∉ x ++ y := by
  intro hm
  rcases List.mem_append.mp hm with hm | hm
  exacts [hx hm, hy hm]

theorem splitTwoBlocks (H A P K : String)
    (hH : ('\n' : Char) ∉ H.data) (hA : ('\n' : Char) ∉ A.data)
    (hP : ('\n' : Char) ∉ P.data) (hK : ('\n' : Char) ∉ K.data) :
    splitOnChar '\n' (baseBlock H P K ++ aliasBlock H A P K).data =
      [[],
       "Host ".data ++ H.data,
       "    HostName ".data ++ H.data,
       "    User git".data,
       "    IdentityFile ".data ++ P.data,
       "    IdentitiesOnly yes".data,
       "    UserKnownHostsFile ".data ++ K.data,
       "    GlobalKnownHostsFile ".data ++ K.data,
       [],
       "Host ".data ++ (H.data ++ '-' :: A.data),
       "    HostName ".data ++ H.data,
       "    User git".data,
       "    IdentityFile ".data ++ P.data,
       "    IdentitiesOnly yes".data,
       "    UserKnownHostsFile ".data ++ K.data,
       "    GlobalKnownHostsFile ".data ++ K.data,
       []] := by
  have hdata : (baseBlock H P K ++ aliasBlock H A P K).data =
      '\n' :: (("Host ".data ++ H.data) ++ '\n' ::
      (("    HostName ".data ++ H.data) ++ '\n' ::
      ("    User git".data ++ '\n' ::
      (("    IdentityFile ".data ++ P.data) ++ '\n' ::
      ("    IdentitiesOnly yes".data ++ '\n' ::
      (("    UserKnownHostsFile ".data ++ K.data) ++ '\n' ::
      (("    GlobalKnownHostsFile ".data ++ K.data) ++ '\n' ::
      ('\n' ::
      (("Host ".data ++ (H.data ++ '-' :: A.data)) ++ '\n' ::
      (("    HostName ".data ++ H.data) ++ '\n' ::
      ("    User git".data ++ '\n' ::
      (("    IdentityFile ".data ++ P.data) ++ '\n' ::
      ("    IdentitiesOnly yes".data ++ '\n' ::
      (("    UserKnownHostsFile ".data ++ K.data) ++ '\n' ::
      (("    GlobalKnownHostsFile ".data ++ K.data) ++ '\n' ::
        []))))))))))))))) := by
    simp [baseBlock, aliasBlock, String.data_append, List.append_assoc]
  have d0 : ('\n' : Char) ∉ ("Host " : String).data := by decide
  have d1 : ('\n' : Char) ∉ ("    HostName " : String).data := by decide
  have d2 : ('\n' : Char) ∉ ("    User git" : String).data := by decide
  have d3 : ('\n' : Char) ∉ ("    IdentityFile " : String).data := by decide
  have d4 : ('\n' : Char) ∉ ("    IdentitiesOnly yes" : String).data := by decide
  have d5 : ('\n' : Char) ∉ ("    UserKnownHostsFile " : String).data := by decide
  have d6 : ('\n' : Char) ∉ ("    GlobalKnownHostsFile " : String).data := by decide
  have hDash : ('\n' : Char) ∉ ('-' :: A.data) := by
    intro hm
    rcases List.mem_cons.mp hm with hm | hm
    · exact absurd hm (by decide)
    · exact hA hm
  have s1 := noNL_app d0 hH
  have s2 := noNL_app d1 hH
  have s4 := noNL_app d3 hP
  have s6 := noNL_app d5 hK
  have s7 := noNL_app d6 hK
  have s9 := noNL_app d0 (noNL_app hH hDash)
  rw [hdata]
  rw [splitOnChar_cons_sep '\n' '\n' _ (by decide)]
  rw [splitOnChar_seg '\n' _ _ s1]
  rw [splitOnChar_seg '\n' _ _ s2]
  rw [splitOnChar_seg '\n' _ _ d2]
  rw [splitOnChar_seg '\n' _ _ s4]
  rw [splitOnChar_seg '\n' _ _ d4]
  rw [splitOnChar_seg '\n' _ _ s6]
  rw [splitOnChar_seg '\n' _ _ s7]
  rw [splitOnChar_cons_sep '\n' '\n' _ (by decide)]
  rw [splitOnChar_seg '\n' _ _ s9]
  rw [splitOnChar_seg '\n' _ _ s2]
  rw [splitOnChar_seg '\n' _ _ d2]
  rw [splitOnChar_seg '\n' _ _ s4]
  rw [splitOnChar_seg '\n' _ _ d4]
  rw [splitOnChar_seg '\n' _ _ s6]
  rw [splitOnChar_seg '\n' _ _ s7]
  rfl

theorem hostStanzaPatterns_two_blocks (H A P K : String)
    (hH : ('\n' : Char) ∉ H.data) (hA : ('\n' : Char) ∉ A.data)
    (hP : ('\n' : Char) ∉ P.data) (hK : ('\n' : Char) ∉ K.data) :
    hostStanzaPatterns (baseBlock H P K ++ aliasBlock H A P K) =
      [H, H ++ "-" ++ A] := by
  unfold hostStanzaPatterns
  rw [splitTwoBlocks H A P K hH hA hP hK]
  have hdrop : ∀ r : List Char, List.drop 5 ('H' :: 'o' :: 's' :: 't' :: ' ' :: r) = r :=
    fun r => rfl
  have hmk : ∀ s : String, String.mk s.data = s := fun s => rfl
  have hM1 : String.mk (H.data ++ '-' :: A.data) = H ++ "-" ++ A := by
    apply String.ext
    simp
  simp [List.filterMap_cons, listPrefixB, hdrop, hmk, hM1]

theorem hostMap_cases (x H : String) (h : hostMap x = some H) :
    (x = "github" ∧ H = "github.com") ∨
    (x = "bitbucket" ∧ H = "bitbucket.org") ∨
    (x = "constructor" ∧ H = "function Object() \x7b [native code] \x7d") ∨
    (x = "__proto__" ∧ H = "[object Object]") := by
  unfold hostMap at h
  by_cases h1 : x = "github"
  · rw [if_pos h1] at h
    injection h with h2
    exact Or.inl ⟨h1, h2.symm⟩
  · rw [if_neg h1] at h
    by_cases h2 : x = "bitbucket"
    · rw [if_pos h2] at h
      injection h with h3
      exact Or.inr (Or.inl ⟨h2, h3.symm⟩)
    · rw [if_neg h2] at h
      by_cases h3 : x = "constructor"
      · rw [if_pos h3] at h
        injection h with h4
        exact Or.inr (Or.inr (Or.inl ⟨h3, h4.symm⟩))
      · rw [if_neg h3] at h
        by_cases h4 : x = "__proto__"
        · rw [if_pos h4] at h
          injection h with h5
          exact Or.inr (Or.inr (Or.inr ⟨h4, h5.symm⟩))
        · rw [if_neg h4] at h
          exact absurd h (by simp)

theorem noNL_str_app (x y : String) (hx : ('\n' : Char) ∉ x.data)
    (hy : ('\n' : Char) ∉ y.data) : ('\n' : Char) ∉ (x ++ y).data := by
  rw [String.data_append]; exact noNL_app hx hy

theorem noNL_sharedDir (win : Bool) : ('\n' : Char) ∉ (sharedSSHDirOf win).data := by
  cases win <;> decide

theorem noNL_sep (win : Bool) : ('\n' : Char) ∉ (sepOf win).data := by
  cases win <;> decide

theorem noNL_inSharedDir (win : Bool) (name : String)
    (hn : ('\n' : Char) ∉ name.data) : ('\n' : Char) ∉ (inSharedDir win name).data := by
  unfold inSharedDir
  exact noNL_str_app _ _ (noNL_str_app _ _ (noNL_sharedDir win) (noNL_sep win)) hn

theorem noNL_keyName (pn A : String) (hpn : ('\n' : Char) ∉ pn.data)
    (hA : ('\n' : Char) ∉ A.data) : ('\n' : Char) ∉ (keyNameOf pn A).data := by
  unfold keyNameOf
  exact noNL_str_app _ _
    (noNL_str_app _ _ (noNL_str_app _ _ (by decide) hpn) (by decide)) hA

theorem mem_configAppendsL (effs : List Effect) (q s : String)
    (h : Effect.appendFile q s ∈ effs) : s ∈ configAppendsL effs q := by
  unfold configAppendsL
  refine List.mem_filterMap.mpr ⟨Effect.appendFile q s, h, ?_⟩
  simp

theorem baseBlock_ne_aliasBlock (H A P K : String) :
    baseBlock H P K ≠ aliasBlock H A P K := by
  rw [baseBlock_shape, aliasBlock_shape]
  intro h
  have hd := congrArg String.data h
  simp only [String.data_append, List.append_assoc] at hd
  have c1 := List.append_cancel_left hd
  have c2 := List.append_cancel_left c1
  have c3 := List.append_cancel_left c2
  simp at c3

end Sshkey

namespace Sshkey

/-! ### Claim theorems -/

/-- C2: for every invocation whose first run succeeds, running the
provisioning a second time on the resulting filesystem is a complete no-op:
it returns the same filesystem unchanged, performs zero filesystem effects
(no key generation, no known-hosts write, no `Host` block append), and exits
successfully. -/
theorem c2_idempotent (a p : Option String) (env : Env) (fs : FS)
    (h : (generateSharedSSHKey a p env fs).exitCode = 0) :
    generateSharedSSHKey a p env ((generateSharedSSHKey a p env fs).fs) =
      ⟨(generateSharedSSHKey a p env fs).fs, [], 0, none⟩ := by
  obtain ⟨ha, hp, H, hm, hk⟩ := run_exit_zero a p env fs h
  exact run_noop a p env _ H ha hp hm (run_success_good a p env fs H hm h)

/-- Witness for C2 at alias `foo`, provider `github`, on the empty
filesystem. -/
theorem c2_idempotent_witness :
    generateSharedSSHKey (some "foo") (some "github") envL
        ((generateSharedSSHKey (some "foo") (some "github") envL fsEmpty).fs) =
      ⟨(generateSharedSSHKey (some "foo") (some "github") envL fsEmpty).fs,
        [], 0, none⟩ :=
  c2_idempotent (some "foo") (some "github") envL fsEmpty (by decide)

/-- C5: the provider resolution maps `github` to `github.com` and
`bitbucket` to `bitbucket.org`, resolves `GitHub` like `github`, and is
insensitive to casing: every provider string resolves exactly like its
lowercase form. -/
theorem c5_host_resolution :
    resolveHost "github" = some "github.com" ∧
    resolveHost "bitbucket" = some "bitbucket.org" ∧
    resolveHost "GitHub" = some "github.com" ∧
    ∀ prov : String, resolveHost prov = resolveHost (jsToLowerCase prov) := by
  refine ⟨by decide, by decide, by decide, fun prov => ?_⟩
  unfold resolveHost
  rw [jsToLowerCase_idem]

/-- C6: when the alias or the provider CLI argument is absent, the run
signals `MissingArguments`, exits with status 1 and leaves the filesystem
untouched, performing no effect. -/
theorem c6_missing_arguments (a p : Option String) (env : Env) (fs : FS)
    (h : a = none ∨ p = none) :
    generateSharedSSHKey a p env fs =
      ⟨fs, [], 1, some RunError.missingArguments⟩ := by
  apply run_missing
  cases h with
  | inl h => subst h; exact Or.inl rfl
  | inr h => subst h; exact Or.inr rfl

/-- Witness for C6 with the alias argument absent. -/
theorem c6_missing_arguments_witness :
    generateSharedSSHKey none (some "github") envL fsEmpty =
      ⟨fsEmpty, [], 1, some RunError.missingArguments⟩ :=
  c6_missing_arguments none (some "github") envL fsEmpty (Or.inl rfl)

/-- C3 counterexample: two provider strings whose lowercase form is neither
`github` nor `bitbucket` for which the run does not fail with
`InvalidProvider`.  The provider `constructor` hits the truthy inherited
`Object.prototype.constructor` in the bracket lookup, so the run proceeds
past the validation and succeeds, creating files; the empty provider trips
the falsy-argument usage check first and fails with `MissingArguments`. -/
theorem c3_counterexample :
    jsToLowerCase "constructor" ≠ "github" ∧
    jsToLowerCase "constructor" ≠ "bitbucket" ∧
    (generateSharedSSHKey (some "foo") (some "constructor") envL fsEmpty).error =
      none ∧
    (generateSharedSSHKey (some "foo") (some "constructor") envL fsEmpty).exitCode =
      0 ∧
    (generateSharedSSHKey (some "foo") (some "constructor") envL fsEmpty).effects ≠
      [] ∧
    jsToLowerCase "" ≠ "github" ∧ jsToLowerCase "" ≠ "bitbucket" ∧
    (generateSharedSSHKey (some "foo") (some "") envL fsEmpty).error =
      some RunError.missingArguments := by
  refine ⟨by decide, by decide, by decide, by decide, by decide,
    by decide, by decide, by decide⟩

/-- C3 (amended): for a truthy alias argument and a nonempty all-ASCII
provider string whose lowercase form is none of `github`, `bitbucket`,
`constructor`, `__proto__`, the run fails with `InvalidProvider`, exits
with status 1, and leaves the filesystem untouched with no effect
performed.  (The lowercased key of an all-ASCII provider contains no
uppercase letter, so `constructor` and `__proto__` are the only inherited
`Object.prototype` names it can reach; excluding them, the bracket lookup
misses and line 24 throws.  The all-ASCII hypothesis is not needed to prove
the statement of the model: it scopes the claim to the inputs on which the
modelled lowercasing is byte-exact to the JS method, so that the statement
is also true of the program.) -/
theorem c3_invalid_provider (a : Option String) (p : String) (env : Env) (fs : FS)
    (ha : truthy a = true) (hp : p ≠ "") (hascii : allASCII p = true)
    (h1 : jsToLowerCase p ≠ "github") (h2 : jsToLowerCase p ≠ "bitbucket")
    (h3 : jsToLowerCase p ≠ "constructor") (h4 : jsToLowerCase p ≠ "__proto__") :
    generateSharedSSHKey a (some p) env fs =
      ⟨fs, [], 1, some RunError.invalidProvider⟩ := by
  refine run_invalid a (some p) env fs ha (by simp [truthy, hp]) ?_
  simp only [Option.getD_some]
  rw [hostMap, if_neg h1, if_neg h2, if_neg h3, if_neg h4]

/-- Witness for C3 (amended) with provider `GitLab`. -/
theorem c3_invalid_provider_witness :
    generateSharedSSHKey (some "foo") (some "GitLab") envL fsEmpty =
      ⟨fsEmpty, [], 1, some RunError.invalidProvider⟩ :=
  c3_invalid_provider (some "foo") "GitLab" envL fsEmpty
    (by decide) (by decide) (by decide) (by decide) (by decide)
    (by decide) (by decide)

/-- C9: when the private key is absent and the external `ssh-keygen`
invocation fails, the run exits with status 1 reporting
`KeyGenerationFailed`; the files are untouched and the only possible effect
is the creation of the shared SSH directory. -/
theorem c9_keygen_failure (a p : Option String) (env : Env) (fs : FS) (H : String)
    (ha : truthy a = true) (hp : truthy p = true)
    (hm : hostMap (jsToLowerCase (p.getD "")) = some H)
    (hk : fs.existsFile (privPathOf env.platformWin (jsToLowerCase (p.getD ""))
      (a.getD "")) = false)
    (hkg : env.keygenOk = false) :
    generateSharedSSHKey a p env fs =
      ⟨{ fs with dirExists := true },
       if fs.dirExists then [] else [Effect.mkdir (sharedSSHDirOf env.platformWin)],
       1, some RunError.keyGenerationFailed⟩ := by
  rw [run_valid a p env fs H ha hp hm, provisionValid_kgfail _ _ _ _ _ hk hkg,
    mkdirStep_fst, mkdirStep_eff]

/-- Witness for C9 at alias `foo`, provider `github`, failing keygen, empty
filesystem. -/
theorem c9_keygen_failure_witness :
    generateSharedSSHKey (some "foo") (some "github") envKgFail fsEmpty =
      ⟨{ fsEmpty with dirExists := true },
       if fsEmpty.dirExists then []
       else [Effect.mkdir (sharedSSHDirOf envKgFail.platformWin)],
       1, some RunError.keyGenerationFailed⟩ :=
  c9_keygen_failure (some "foo") (some "github") envKgFail fsEmpty "github.com"
    (by decide) (by decide) (by decide) (by decide) (by decide)

/-- C7: whenever a run succeeds, the known-hosts file afterwards holds: if
it was absent it now contains exactly the two pinned fingerprint lines (the
GitHub line and the Bitbucket line, independent of the requested provider)
with mode `0o600`; if it already existed it is unchanged. -/
theorem c7_known_hosts (a p : Option String) (env : Env) (fs : FS)
    (h : (generateSharedSSHKey a p env fs).exitCode = 0) :
    (generateSharedSSHKey a p env fs).fs.lookupFile (khPathOf env.platformWin) =
      some ((fs.lookupFile (khPathOf env.platformWin)).getD
        ⟨knownHostsContent, 0o600⟩) ∧
    knownHostsContent = ghFingerprint ++ "\n" ++ bbFingerprint ++ "\n" ∧
    listPrefixB "github.com ".data ghFingerprint.data = true ∧
    listPrefixB "bitbucket.org ".data bbFingerprint.data = true := by
  refine ⟨?_, by rw [knownHostsContent, trustedHosts, intercalate_pair],
    by decide, by decide⟩
  obtain ⟨ha, hp, H, hm, hk⟩ := run_exit_zero a p env fs h
  obtain ⟨fsK, effK, heq, hdir, hpriv, hkh, hcfg, -⟩ :=
    provisionValid_reach (a.getD "") (jsToLowerCase (p.getD "")) H env fs hk
  rw [run_valid a p env fs H ha hp hm, heq, provisionAfterKey_kh,
    FS.existsFile_eq_isSome, hkh]
  cases hex : fs.lookupFile (khPathOf env.platformWin) with
  | none => simp
  | some e => simp

/-- Witness for C7 at alias `foo`, provider `github`, empty filesystem. -/
theorem c7_known_hosts_witness :
    (generateSharedSSHKey (some "foo") (some "github") envL fsEmpty).fs.lookupFile
        (khPathOf envL.platformWin) =
      some ((fsEmpty.lookupFile (khPathOf envL.platformWin)).getD
        ⟨knownHostsContent, 0o600⟩) ∧
    knownHostsContent = ghFingerprint ++ "\n" ++ bbFingerprint ++ "\n" ∧
    listPrefixB "github.com ".data ghFingerprint.data = true ∧
    listPrefixB "bitbucket.org ".data bbFingerprint.data = true :=
  c7_known_hosts (some "foo") (some "github") envL fsEmpty (by decide)

/-- A filesystem with the shared directory, the `foo`/`github` private key
and the known-hosts file present, and a config file with text `c` (Linux
paths). -/
def fsWithCfg (c : String) : FS :=
  { dirExists := true,
    files := fun q =>
      if q = cfgPathOf false then some ⟨c, 0o644⟩
      else if q = privPathOf false "github" "foo" then some ⟨"PRIVATEKEY", 0o600⟩
      else if q = khPathOf false then some ⟨knownHostsContent, 0o600⟩
      else none }

/-- A config text whose only stanza header is `Host github.com-ci`: it
contains the character sequence `Host github.com` only as a prefix of that
alias header, and holds no stanza for the bare pattern `github.com`. -/
def cfgC8 : String := "Host github.com-ci\n    HostName github.com\n    User git\n"

/-- C8: the base-block presence check is raw substring containment: in any
run over a config whose text contains the characters `Host <hostName>`
anywhere, the base block is never appended — and this can happen with no
stanza for the bare hostname present, as the concrete text
`Host github.com-ci...` shows (it contains the substring `Host github.com`
but no `github.com` stanza). -/
theorem c8_substring_base_skip :
    (∀ (a p : Option String) (env : Env) (fs : FS) (e : FileEntry) (H : String),
      fs.lookupFile (cfgPathOf env.platformWin) = some e →
      hostMap (jsToLowerCase (p.getD "")) = some H →
      strContains e.content ("Host " ++ H) = true →
      Effect.appendFile (cfgPathOf env.platformWin)
          (baseBlock H (privPathOf env.platformWin (jsToLowerCase (p.getD ""))
            (a.getD "")) (khPathOf env.platformWin))
        ∉ (generateSharedSSHKey a p env fs).effects) ∧
    strContains cfgC8 "Host github.com" = true ∧
    hasHostStanza cfgC8 "github.com" = false := by
  refine ⟨?_, by decide, by decide⟩
  intro a p env fs e H hc hm hcont hmem
  by_cases ha : truthy a = true
  · by_cases hp : truthy p = true
    · by_cases hreach : fs.existsFile (privPathOf env.platformWin
          (jsToLowerCase (p.getD "")) (a.getD "")) = true ∨ env.keygenOk = true
      · obtain ⟨fsK, effK, heq, hdir, hpriv, hkh, hcfg, heffK⟩ :=
          provisionValid_reach (a.getD "") (jsToLowerCase (p.getD "")) H env fs hreach
        rw [run_valid a p env fs H ha hp hm, heq, provisionAfterKey_effects_eq,
          hcfg, hc] at hmem
        simp only [contentOf] at hmem
        rw [if_pos hcont] at hmem
        simp only [List.append_nil, List.mem_append] at hmem
        rcases hmem with (hmem | hmem) | hmem
        · have hx := mem_configAppendsL effK (cfgPathOf env.platformWin) _ hmem
          rw [heffK] at hx
          exact absurd hx (List.not_mem_nil _)
        · revert hmem
          split
          · exact List.not_mem_nil _
          · intro hmem
            simp at hmem
        · revert hmem
          split
          · exact List.not_mem_nil _
          · intro hmem
            simp at hmem
            exact baseBlock_ne_aliasBlock H (a.getD "") _ _ hmem
      · have hk2 : fs.existsFile (privPathOf env.platformWin
            (jsToLowerCase (p.getD "")) (a.getD "")) = false :=
          bool_false_of_not_true fun hh => hreach (Or.inl hh)
        have hkg2 : env.keygenOk = false :=
          bool_false_of_not_true fun hh => hreach (Or.inr hh)
        rw [run_valid a p env fs H ha hp hm,
          provisionValid_kgfail _ _ _ _ _ hk2 hkg2] at hmem
        rw [show (⟨(mkdirStep env.platformWin fs).1, (mkdirStep env.platformWin fs).2,
            1, some RunError.keyGenerationFailed⟩ : Outcome).effects =
          (mkdirStep env.platformWin fs).2 from rfl, mkdirStep_eff] at hmem
        revert hmem
        split
        · exact List.not_mem_nil _
        · intro hmem
          simp at hmem
    · rw [run_missing a p env fs (Or.inr (bool_false_of_not_true hp))] at hmem
      exact absurd hmem (List.not_mem_nil _)
  · rw [run_missing a p env fs (Or.inl (bool_false_of_not_true ha))] at hmem
    exact absurd hmem (List.not_mem_nil _)

/-- Witness for C8: a run for alias `foo`, provider `github` over the
concrete config `cfgC8` appends no base block. -/
theorem c8_substring_base_skip_witness :
    Effect.appendFile (cfgPathOf envL.platformWin)
        (baseBlock "github.com" (privPathOf envL.platformWin
          (jsToLowerCase "github") "foo") (khPathOf envL.platformWin))
      ∉ (generateSharedSSHKey (some "foo") (some "github") envL
          (fsWithCfg cfgC8)).effects :=
  c8_substring_base_skip.1 (some "foo") (some "github") envL (fsWithCfg cfgC8)
    ⟨cfgC8, 0o644⟩ "github.com" (by decide) (by decide) (by decide)

/-- A config text with a proper `Host github.com` stanza line and an alias
stanza `Host github.com-foobar`; it contains the character sequence
`Host github.com-foo` only as a prefix of `Host github.com-foobar`, so no
stanza for the pattern `github.com-foo` is present. -/
def cfgC1 : String := "Host github.com\nHost github.com-foobar\n"

/-- C1 counterexample: the config `cfgC1` contains the line
`Host github.com` and no stanza for the pattern `github.com-foo`, yet the
run for alias `foo` / provider `github` succeeds while appending nothing at
all — in particular it does not append the `github.com-foo` alias block,
because the substring check finds `Host github.com-foo` inside
`Host github.com-foobar`. -/
theorem c1_counterexample :
    containsLine cfgC1 "Host github.com" = true ∧
    hasHostStanza cfgC1 "github.com-foo" = false ∧
    (generateSharedSSHKey (some "foo") (some "github") envL
      (fsWithCfg cfgC1)).exitCode = 0 ∧
    (generateSharedSSHKey (some "foo") (some "github") envL
      (fsWithCfg cfgC1)).effects = [] := by
  refine ⟨by decide, by decide, by decide, by decide⟩

/-- C1 (amended): for a run with alias `foo` and provider `github` against
an existing config file whose text contains a line `Host github.com`, and
which can reach the config stage (key present or keygen succeeding), the run
does not append a duplicate base block, and it appends the `github.com-foo`
alias block exactly when the substring `Host github.com-foo` does not occur
in the pre-existing config text. -/
theorem c1_alias_append (env : Env) (fs : FS) (e : FileEntry)
    (hc : fs.lookupFile (cfgPathOf env.platformWin) = some e)
    (hline : containsLine e.content "Host github.com" = true)
    (hreach : fs.existsFile (privPathOf env.platformWin "github" "foo") = true ∨
      env.keygenOk = true) :
    configAppends (generateSharedSSHKey (some "foo") (some "github") env fs)
        (cfgPathOf env.platformWin) =
      if strContains e.content "Host github.com-foo" then []
      else [aliasBlock "github.com" "foo" (privPathOf env.platformWin "github" "foo")
        (khPathOf env.platformWin)] := by
  have hlow : jsToLowerCase "github" = "github" := by decide
  have hbase : strContains e.content ("Host " ++ "github.com") = true := by
    rw [show ("Host " ++ "github.com" : String) = "Host github.com" from rfl]
    exact strContains_of_containsLine _ _ hline
  obtain ⟨fsK, effK, heq, hdir, hpriv, hkh, hcfg, heffK⟩ :=
    provisionValid_reach "foo" (jsToLowerCase "github") "github.com" env fs
      (by rw [hlow]; exact hreach)
  rw [run_valid (some "foo") (some "github") env fs "github.com"
    (by decide) (by decide) (by decide)]
  simp only [Option.getD_some]
  rw [heq, configAppends, provisionAfterKey_effects_eq, hcfg, hc]
  simp only [contentOf]
  rw [if_pos hbase]
  rw [configAppendsL_append, configAppendsL_append, configAppendsL_append, heffK,
    configAppendsL_ite_writeFile]
  simp only [List.nil_append, List.append_nil]
  rw [show configAppendsL ([] : List Effect) (cfgPathOf env.platformWin) = [] from rfl]
  rw [hlow]
  rw [show ("Host " ++ "github.com" ++ "-" ++ "foo" : String) =
    "Host github.com-foo" from rfl]
  by_cases hal : strContains e.content "Host github.com-foo" = true
  · rw [if_pos hal, if_pos hal]
    rfl
  · rw [if_neg hal, if_neg hal]
    simp [configAppendsL]

/-- Witness for C1 (amended) on a config holding exactly the line
`Host github.com`. -/
theorem c1_alias_append_witness :
    configAppends (generateSharedSSHKey (some "foo") (some "github") envL
        (fsWithCfg "Host github.com\n")) (cfgPathOf envL.platformWin) =
      if strContains "Host github.com\n" "Host github.com-foo" then []
      else [aliasBlock "github.com" "foo"
        (privPathOf envL.platformWin "github" "foo") (khPathOf envL.platformWin)] :=
  c1_alias_append envL (fsWithCfg "Host github.com\n") ⟨"Host github.com\n", 0o644⟩
    (by decide) (by decide) (by decide)

/-- C4 counterexample: with the alias `x\nHost y` (a legal, truthy alias
string — alias text is never sanitized), a successful run from a state with
no config file produces a config with five `Host` stanza headers, not two:
the newline in the alias is interpolated verbatim into the key path and the
alias header, creating extra `Host` lines. -/
theorem c4_counterexample :
    fsEmpty.lookupFile (cfgPathOf envL.platformWin) = none ∧
    (generateSharedSSHKey (some "x\nHost y") (some "github") envL
      fsEmpty).exitCode = 0 ∧
    (hostStanzaPatterns (contentOf
      ((generateSharedSSHKey (some "x\nHost y") (some "github") envL
        fsEmpty).fs.lookupFile (cfgPathOf envL.platformWin)))).length = 5 := by
  refine ⟨rfl, by decide, by decide⟩

/-- C4 (amended): starting with no config file, a successful run for an
alias containing no newline character produces a config file whose `Host`
stanza headers are exactly the bare hostname followed by
`<hostname>-<alias>`, in that order. -/
theorem c4_two_stanzas (a p : Option String) (env : Env) (fs : FS) (H : String)
    (hm : hostMap (jsToLowerCase (p.getD "")) = some H)
    (hcfg0 : fs.lookupFile (cfgPathOf env.platformWin) = none)
    (hnl : ('\n' : Char) ∉ (a.getD "").data)
    (h : (generateSharedSSHKey a p env fs).exitCode = 0) :
    hostStanzaPatterns (contentOf
      ((generateSharedSSHKey a p env fs).fs.lookupFile (cfgPathOf env.platformWin))) =
      [H, H ++ "-" ++ a.getD ""] := by
  obtain ⟨ha, hp, H2, hm2, hk⟩ := run_exit_zero a p env fs h
  rw [hm] at hm2
  injection hm2 with hH2
  subst hH2
  obtain ⟨fsK, effK, heq, hdir, hpriv, hkh, hcfg, -⟩ :=
    provisionValid_reach (a.getD "") (jsToLowerCase (p.getD "")) H env fs hk
  rw [run_valid a p env fs H ha hp hm, heq, provisionAfterKey_content, hcfg, hcfg0]
  rw [show contentOf none = "" from rfl]
  have hne1 : strContains "" ("Host " ++ H) = false := by
    apply strContains_empty
    rw [String.data_append]
    simp
  have hne2 : strContains "" ("Host " ++ H ++ "-" ++ a.getD "") = false := by
    apply strContains_empty
    simp [String.data_append]
  rw [hne1, hne2, if_neg Bool.false_ne_true, if_neg Bool.false_ne_true,
    str_empty_append]
  have hHnl : ('\n' : Char) ∉ H.data := by
    rcases hostMap_cases _ _ hm with ⟨hpn, hHv⟩ | ⟨hpn, hHv⟩ | ⟨hpn, hHv⟩ | ⟨hpn, hHv⟩ <;>
      subst hHv <;> decide
  have hpnnl : ('\n' : Char) ∉ (jsToLowerCase (p.getD "")).data := by
    rcases hostMap_cases _ _ hm with ⟨hpn, hHv⟩ | ⟨hpn, hHv⟩ | ⟨hpn, hHv⟩ | ⟨hpn, hHv⟩ <;>
      rw [hpn] <;> decide
  exact hostStanzaPatterns_two_blocks H (a.getD "") _ _ hHnl hnl
    (noNL_inSharedDir _ _ (noNL_keyName _ _ hpnnl hnl))
    (noNL_inSharedDir _ _ (by decide))

/-- Witness for C4 (amended) at alias `foo`, provider `github`, empty
filesystem. -/
theorem c4_two_stanzas_witness :
    hostStanzaPatterns (contentOf
      ((generateSharedSSHKey (some "foo") (some "github") envL
        fsEmpty).fs.lookupFile (cfgPathOf envL.platformWin))) =
      ["github.com", "github.com" ++ "-" ++ "foo"] :=
  c4_two_stanzas (some "foo") (some "github") envL fsEmpty "github.com"
    (by decide) rfl (by decide) (by decide)

/-- C10: the run normalizes the provider to lowercase before any use: for
every alias argument, provider string, environment and filesystem, running
with the provider as given and running with its lowercase form produce
identical outcomes (same key paths, same blocks, same effects, same exit). -/
theorem c10_lowercase_normalization (a : Option String) (p : String)
    (env : Env) (fs : FS) :
    generateSharedSSHKey a (some p) env fs =
      generateSharedSSHKey a (some (jsToLowerCase p)) env fs := by
  unfold generateSharedSSHKey
  simp only [Option.getD_some]
  rw [truthy_jsToLowerCase, jsToLowerCase_idem]

end Sshkey
